import Mathlib

/-!
Verification of the region-classification and position-mapping layer of a
language server for a mixed markup/scripting document format.

The embedding follows `completions.py` and `server.py`:

* Document text is modelled as `List Char` (one entry per code point, the
  unit `len`/slicing works with in the source language).
* `Position` is the protocol's zero-based (line, character) pair.
* `position_to_offset` mirrors `position_to_offset`: sum of `len(line) + 1`
  over the lines strictly before `position.line`, plus `position.character`.
* The regex `<script[^>]*>(.*?)</script>` (DOTALL, case-sensitive, applied
  with `finditer`) is embedded by `matchScriptAt` / `regionsGo` /
  `findRegions`: at each start offset the scanner requires the literal
  `<script`, then the shortest run of non-`>` characters followed by `>`
  (the regex `[^>]*>` can only consume up to the first `>`), then the
  content ends at the first occurrence of `</script>`; scanning resumes at
  the end of each match, exactly as `finditer` does.
* External collaborators (`construct_ast`+jedi, `lint_cgx_content`,
  `format_cgx_content`, the semantic-tokens provider) are out of scope and
  appear as function parameters; a fallible collaborator is an
  `Except CollabError` valued function, the `error` case standing for a
  raised exception that the caller's `try/except` catches.
-/

/-- Zero-based (line, character) protocol position, as in `lsprotocol`. -/
structure Position where
  line : Nat
  character : Nat
deriving DecidableEq

/-- Python's `source.split("\n")`: the list of lines of a text, without the
separators.  Always non-empty; `[]` splits to `[[]]`. -/
def splitNl : List Char → List (List Char)
  | [] => [[]]
  | c :: cs =>
    match splitNl cs with
    | [] => [[]]
    | l :: ls => if c = '\n' then [] :: l :: ls else (c :: l) :: ls

/-- `position_to_offset` from `completions.py`: split the text on newlines,
sum `len(line) + 1` over the first `position.line` lines, add
`position.character`.  (Python's `lines[:position.line]` silently truncates
when the line index runs past the end, and `character` is added unchecked.) -/
def position_to_offset (source : List Char) (p : Position) : Nat :=
  (((splitNl source).take p.line).map (fun l => l.length + 1)).sum + p.character

/-- The literal characters of `<script`, the fixed part of the opening tag
in the pattern `<script[^>]*>(.*?)</script>`. -/
def scriptOpen : List Char := ['<', 's', 'c', 'r', 'i', 'p', 't']

/-- The literal characters of the closing tag `</script>`. -/
def scriptClose : List Char := ['<', '/', 's', 'c', 'r', 'i', 'p', 't', '>']

/-- Index of the first occurrence of `pat` in a text (Python `str.find` /
the landing point of a lazy regex scan), `none` when absent. -/
def findSub (pat : List Char) : List Char → Option Nat
  | [] => if pat.isPrefixOf [] then some 0 else none
  | c :: cs =>
    if pat.isPrefixOf (c :: cs) then some 0
    else (findSub pat cs).map (fun i => i + 1)

/-- One attempt of the regex `<script[^>]*>(.*?)</script>` anchored at the
start of `cs`.  Returns `(contentStart, contentEnd, matchEnd)` relative to
`cs` on success:

* the literal `<script` must be a prefix;
* `[^>]*>` deterministically consumes up to and including the first `>`
  (the character class cannot cross a `>`, so no other backtracking
  outcome exists);
* the lazy `(.*?)` with DOTALL ends the content at the first occurrence of
  `</script>` after the opening tag. -/
def matchScriptAt (cs : List Char) : Option (Nat × Nat × Nat) :=
  if scriptOpen.isPrefixOf cs then
    match findSub ['>'] (cs.drop 7) with
    | none => none
    | some g =>
      match findSub scriptClose ((cs.drop 7).drop (g + 1)) with
      | none => none
      | some k => some (7 + g + 1, 7 + g + 1 + k, 7 + g + 1 + k + 9)
  else none

/-- The `finditer` loop: try a match at each offset from left to right and
resume after the end of every match (matches never overlap).  `fuel`
bounds the recursion; `findRegions` supplies `length + 1`, which is enough
since every step consumes at least one character. -/
def regionsGo : Nat → List Char → Nat → List (Nat × Nat)
  | 0, _, _ => []
  | _ + 1, [], _ => []
  | fuel + 1, c :: cs, pos =>
    match matchScriptAt (c :: cs) with
    | some (s, e, m) =>
        (pos + s, pos + e) :: regionsGo fuel ((c :: cs).drop m) (pos + m)
    | none => regionsGo fuel cs (pos + 1)

/-- All `(match.start(1), match.end(1))` content spans produced by
`re.finditer(r"<script[^>]*>(.*?)</script>", source, re.DOTALL)`. -/
def findRegions (source : List Char) : List (Nat × Nat) :=
  regionsGo (source.length + 1) source 0

/-- The containment test of `is_in_script_region`, at the already computed
offset: some content span `(s, e)` satisfies `s <= offset <= e`. -/
def is_in_script_region_at (source : List Char) (offset : Nat) : Bool :=
  (findRegions source).any (fun r => decide (r.1 ≤ offset ∧ offset ≤ r.2))

/-- `is_in_script_region` from `completions.py`: convert the position to an
offset, then test it against every region the pattern finds. -/
def is_in_script_region (source : List Char) (p : Position) : Bool :=
  is_in_script_region_at source (position_to_offset source p)

/-- `CompletionContext` from `completions.py`. -/
structure CompletionContext where
  is_python_code : Bool
  full_source : List Char
  original_position : Position
deriving DecidableEq

/-- `analyze_context` from `completions.py`: classify the cursor via
`is_in_script_region` and hand back the full source and position. -/
def analyze_context (source : List Char) (p : Position) : CompletionContext :=
  if is_in_script_region source p then
    { is_python_code := true, full_source := source, original_position := p }
  else
    { is_python_code := false, full_source := source, original_position := p }

-- ------------------------------------------------------------------
-- Helper lemmas about the embedding
-- ------------------------------------------------------------------

theorem splitNl_ne_nil (cs : List Char) : splitNl cs ≠ [] := by
  cases cs with
  | nil => simp [splitNl]
  | cons c cs =>
    simp only [splitNl]
    cases splitNl cs with
    | nil => simp
    | cons l ls =>
      by_cases h : c = '\n' <;> simp [h]

/-- The lines of a text, counted with one separator each, cover the whole
text plus one trailing virtual separator. -/
theorem splitNl_sum (cs : List Char) :
    ((splitNl cs).map (fun l => l.length + 1)).sum = cs.length + 1 := by
  induction cs with
  | nil => simp [splitNl]
  | cons c cs ih =>
    simp only [splitNl]
    cases h : splitNl cs with
    | nil => exact absurd h (splitNl_ne_nil cs)
    | cons l ls =>
      rw [h] at ih
      by_cases hc : c = '\n' <;> simp [hc] <;> simp at ih <;> omega

theorem sum_take_le (l : List Nat) (n : Nat) : (l.take n).sum ≤ l.sum := by
  induction l generalizing n with
  | nil => simp
  | cons x xs ih =>
    cases n with
    | zero => simp
    | succ n => simp only [List.take_succ_cons, List.sum_cons]; exact Nat.add_le_add_left (ih n) x

theorem isPrefixOf_append (l t : List Char) : l.isPrefixOf (l ++ t) = true := by
  induction l with
  | nil => simp [List.isPrefixOf]
  | cons c cs ih => simp [List.isPrefixOf, ih]

/-- A successful anchored match starts its content at offset at least 8
(after `<script` and at least the `>`), has a well-ordered span, and ends
nine characters (the closing tag) after the content. -/
theorem matchScriptAt_bounds (cs : List Char) (s e m : Nat)
    (h : matchScriptAt cs = some (s, e, m)) :
    8 ≤ s ∧ s ≤ e ∧ m = e + 9 := by
  simp only [matchScriptAt] at h
  split at h
  · cases hg : findSub ['>'] (cs.drop 7) with
    | none => simp [hg] at h
    | some g =>
      simp only [hg] at h
      cases hk : findSub scriptClose ((cs.drop 7).drop (g + 1)) with
      | none => rw [hk] at h; simp at h
      | some k =>
        rw [hk] at h
        simp only [Option.some.injEq, Prod.mk.injEq] at h
        omega
  · simp at h

theorem regionsGo_nil (fuel pos : Nat) : regionsGo fuel [] pos = [] := by
  cases fuel <;> simp [regionsGo]

/-- Every span the scanner emits starts at least 8 characters past the
current scan position and is well ordered. -/
theorem regionsGo_bounds (fuel : Nat) :
    ∀ (cs : List Char) (pos s e : Nat),
      (s, e) ∈ regionsGo fuel cs pos → pos + 8 ≤ s ∧ s ≤ e := by
  induction fuel with
  | zero => intro cs pos s e h; simp [regionsGo] at h
  | succ n ih =>
    intro cs pos s e h
    cases cs with
    | nil => simp [regionsGo] at h
    | cons c rest =>
      cases hm : matchScriptAt (c :: rest) with
      | none =>
        simp only [regionsGo, hm] at h
        have := ih rest (pos + 1) s e h
        omega
      | some t =>
        obtain ⟨s0, e0, m⟩ := t
        simp only [regionsGo, hm, List.mem_cons, Prod.mk.injEq] at h
        rcases h with ⟨hs, he⟩ | h
        · have := matchScriptAt_bounds (c :: rest) s0 e0 m hm
          omega
        · have := ih ((c :: rest).drop m) (pos + m) s e h
          omega

theorem findSub_none_cons (pat : List Char) (c : Char) (cs : List Char)
    (h : findSub pat (c :: cs) = none) : findSub pat cs = none := by
  simp only [findSub] at h
  split at h
  · simp at h
  · exact Option.map_eq_none'.mp h

theorem findSub_none_drop (pat : List Char) (n : Nat) :
    ∀ cs : List Char, findSub pat cs = none → findSub pat (cs.drop n) = none := by
  induction n with
  | zero => intro cs h; simpa using h
  | succ n ih =>
    intro cs h
    cases cs with
    | nil => simpa using h
    | cons c rest => exact ih rest (findSub_none_cons pat c rest h)


/-- A found occurrence really is an occurrence: the pattern starts at the
reported index. -/
theorem findSub_some_isPrefixOf (pat : List Char) :
    ∀ (cs : List Char) (k : Nat), findSub pat cs = some k →
      pat.isPrefixOf (cs.drop k) = true := by
  intro cs
  induction cs with
  | nil =>
    intro k h
    cases hp : pat.isPrefixOf ([] : List Char) with
    | true =>
      simp [findSub, hp] at h
      subst h
      simpa using hp
    | false => simp [findSub, hp] at h
  | cons c rest ih =>
    intro k h
    cases hp : pat.isPrefixOf (c :: rest) with
    | true =>
      simp [findSub, hp] at h
      subst h
      simpa using hp
    | false =>
      simp only [findSub, hp, Bool.false_eq_true, if_false] at h
      cases hk : findSub pat rest with
      | none => rw [hk] at h; simp at h
      | some k0 =>
        rw [hk] at h
        simp only [Option.map_some', Option.some.injEq] at h
        subst h
        simpa using ih k0 hk

/-- Inversion of a successful anchored match into its regex components:
the offset of the first `>` and the offset of the first `</script>`. -/
theorem matchScriptAt_inv (cs : List Char) (s e m : Nat)
    (h : matchScriptAt cs = some (s, e, m)) :
    ∃ g k, findSub ['>'] (cs.drop 7) = some g ∧
      findSub scriptClose ((cs.drop 7).drop (g + 1)) = some k ∧
      s = 7 + g + 1 ∧ e = 7 + g + 1 + k ∧ m = 7 + g + 1 + k + 9 := by
  simp only [matchScriptAt] at h
  split at h
  · cases hg : findSub ['>'] (cs.drop 7) with
    | none => rw [hg] at h; simp at h
    | some g =>
      simp only [hg] at h
      cases hk : findSub scriptClose ((cs.drop 7).drop (g + 1)) with
      | none => rw [hk] at h; simp at h
      | some k =>
        rw [hk] at h
        simp only [Option.some.injEq, Prod.mk.injEq] at h
        refine ⟨g, k, rfl, hk, ?_, ?_, ?_⟩ <;> omega
  · simp at h

/-- Without any occurrence of `</script>` the anchored match fails. -/
theorem matchScriptAt_none_of_no_close (cs : List Char)
    (h : findSub scriptClose cs = none) : matchScriptAt cs = none := by
  cases hm : matchScriptAt cs with
  | none => rfl
  | some t =>
    obtain ⟨s, e, m⟩ := t
    obtain ⟨g, k, _, hk, _, _, _⟩ := matchScriptAt_inv cs s e m hm
    have h7 : findSub scriptClose (cs.drop 7) = none := findSub_none_drop _ 7 cs h
    have : findSub scriptClose ((cs.drop 7).drop (g + 1)) = none :=
      findSub_none_drop _ (g + 1) (cs.drop 7) h7
    rw [hk] at this
    exact absurd this (by simp)

/-- Without any occurrence of `</script>` the scanner emits nothing. -/
theorem regionsGo_no_close (fuel : Nat) :
    ∀ (cs : List Char) (pos : Nat), findSub scriptClose cs = none →
      regionsGo fuel cs pos = [] := by
  induction fuel with
  | zero => intro cs pos _; simp [regionsGo]
  | succ n ih =>
    intro cs pos h
    cases cs with
    | nil => simp [regionsGo]
    | cons c rest =>
      have hm : matchScriptAt (c :: rest) = none :=
        matchScriptAt_none_of_no_close _ h
      simp only [regionsGo, hm]
      exact ih rest (pos + 1) (findSub_none_cons _ c rest h)

/-- Every emitted span's content end is followed by a literal `</script>`:
regions only ever arise from an actually terminated tag pair (an
unterminated opening tag is never speculatively closed). -/
theorem regionsGo_close_terminated (fuel : Nat) :
    ∀ (cs : List Char) (pos s e : Nat),
      (s, e) ∈ regionsGo fuel cs pos →
      pos ≤ e ∧ scriptClose.isPrefixOf (cs.drop (e - pos)) = true := by
  induction fuel with
  | zero => intro cs pos s e h; simp [regionsGo] at h
  | succ n ih =>
    intro cs pos s e h
    cases cs with
    | nil => simp [regionsGo] at h
    | cons c rest =>
      cases hm : matchScriptAt (c :: rest) with
      | none =>
        simp only [regionsGo, hm] at h
        obtain ⟨h1, h2⟩ := ih rest (pos + 1) s e h
        refine ⟨by omega, ?_⟩
        have hpos : e - pos = (e - (pos + 1)) + 1 := by omega
        rw [hpos, List.drop_succ_cons]
        exact h2
      | some t =>
        obtain ⟨s0, e0, m⟩ := t
        simp only [regionsGo, hm, List.mem_cons] at h
        rcases h with heq | h
        · injection heq with h1 h2
          subst h1; subst h2
          obtain ⟨g, k, hg, hk, hs0, he0, hm0⟩ := matchScriptAt_inv _ _ _ _ hm
          refine ⟨by omega, ?_⟩
          have hpre := findSub_some_isPrefixOf scriptClose _ k hk
          have harith : pos + e0 - pos = e0 := by omega
          rw [harith, he0]
          have hd : (((c :: rest).drop 7).drop (g + 1)).drop k
              = (c :: rest).drop (7 + g + 1 + k) := by
            rw [List.drop_drop, List.drop_drop]
            congr 1
            omega
          rw [← hd]
          exact hpre
        · obtain ⟨h1, h2⟩ := ih ((c :: rest).drop m) (pos + m) s e h
          refine ⟨by omega, ?_⟩
          have hdd : ((c :: rest).drop m).drop (e - (pos + m))
              = (c :: rest).drop (e - pos) := by
            rw [List.drop_drop]
            congr 1
            omega
          rw [← hdd]
          exact h2

theorem regionsGo_cons_of_match (fuel : Nat) (c : Char) (cs : List Char)
    (pos s e m : Nat) (h : matchScriptAt (c :: cs) = some (s, e, m)) :
    regionsGo (fuel + 1) (c :: cs) pos
      = (pos + s, pos + e) :: regionsGo fuel ((c :: cs).drop m) (pos + m) := by
  simp [regionsGo, h]

/-- A document that is exactly one script tag pair: `<script`, attribute
text, `>`, the content, `</script>`. -/
def tagDoc (attrs content : List Char) : List Char :=
  scriptOpen ++ attrs ++ '>' :: (content ++ scriptClose)

theorem findSub_gt (l r : List Char) (h : '>' ∉ l) :
    findSub ['>'] (l ++ '>' :: r) = some l.length := by
  induction l with
  | nil => simp [findSub, List.isPrefixOf]
  | cons c cs ih =>
    have hc : c ≠ '>' := fun hc => h (by simp [hc])
    have hcs : '>' ∉ cs := fun hm => h (List.mem_cons_of_mem c hm)
    have hpre : (['>'] : List Char).isPrefixOf (c :: (cs ++ '>' :: r)) = false := by
      simp [List.isPrefixOf]
      exact fun hcc => hc hcc.symm
    simp [findSub, hpre, ih hcs]

/-- The anchored match on a pure tag-pair document: the content starts
right after the `>` closing the opening tag (offset `7 + |attrs| + 1`),
ends at the closing tag, and the match consumes the whole document. -/
theorem matchScriptAt_tagDoc (attrs content : List Char)
    (hattr : '>' ∉ attrs)
    (hcontent : findSub scriptClose (content ++ scriptClose) = some content.length) :
    matchScriptAt (tagDoc attrs content)
      = some (7 + attrs.length + 1, 7 + attrs.length + 1 + content.length,
              7 + attrs.length + 1 + content.length + 9) := by
  have hassoc : tagDoc attrs content
      = scriptOpen ++ (attrs ++ '>' :: (content ++ scriptClose)) := by
    simp [tagDoc]
  have hdrop7 : (tagDoc attrs content).drop 7
      = attrs ++ '>' :: (content ++ scriptClose) := by
    rw [hassoc]
    have h7 : (7 : Nat) = scriptOpen.length := rfl
    rw [h7, List.drop_left]
  have hpre : scriptOpen.isPrefixOf (tagDoc attrs content) = true := by
    rw [hassoc]; exact isPrefixOf_append _ _
  have hg : findSub ['>'] ((tagDoc attrs content).drop 7) = some attrs.length := by
    rw [hdrop7]; exact findSub_gt attrs _ hattr
  have hdropg : ((tagDoc attrs content).drop 7).drop (attrs.length + 1)
      = content ++ scriptClose := by
    rw [hdrop7]
    have hsplit : attrs ++ '>' :: (content ++ scriptClose)
        = (attrs ++ ['>']) ++ (content ++ scriptClose) := by simp
    rw [hsplit]
    have hlen : attrs.length + 1 = (attrs ++ ['>']).length := by simp
    rw [hlen, List.drop_left]
  simp only [matchScriptAt, hpre, if_true, hg, hdropg, hcontent]

theorem tagDoc_length (attrs content : List Char) :
    (tagDoc attrs content).length = 7 + attrs.length + 1 + content.length + 9 := by
  simp [tagDoc, scriptOpen, scriptClose]
  omega

/-- `findRegions` on a pure tag-pair document yields exactly the one
content span. -/
theorem findRegions_tagDoc (attrs content : List Char)
    (hattr : '>' ∉ attrs)
    (hcontent : findSub scriptClose (content ++ scriptClose) = some content.length) :
    findRegions (tagDoc attrs content)
      = [(7 + attrs.length + 1, 7 + attrs.length + 1 + content.length)] := by
  have hm := matchScriptAt_tagDoc attrs content hattr hcontent
  have hcons : tagDoc attrs content
      = '<' :: ('s' :: 'c' :: 'r' :: 'i' :: 'p' :: 't' ::
          (attrs ++ '>' :: (content ++ scriptClose))) := by
    simp [tagDoc, scriptOpen]
  rw [findRegions]
  rw [hcons] at hm ⊢
  rw [regionsGo_cons_of_match _ _ _ _ _ _ _ hm]
  have hdropall :
      ('<' :: ('s' :: 'c' :: 'r' :: 'i' :: 'p' :: 't' ::
          (attrs ++ '>' :: (content ++ scriptClose)))).drop
        (7 + attrs.length + 1 + content.length + 9) = [] := by
    apply List.drop_eq_nil_of_le
    rw [← hcons, tagDoc_length]
  rw [hdropall, regionsGo_nil]
  simp

theorem sum_map_take_mono (ls : List (List Char)) {n m : Nat} (h : n ≤ m) :
    ((ls.take n).map (fun l => l.length + 1)).sum
      ≤ ((ls.take m).map (fun l => l.length + 1)).sum := by
  have hm : m = n + (m - n) := by omega
  rw [hm, List.take_add, List.map_append, List.sum_append]
  exact Nat.le_add_right _ _

theorem sum_map_take_succ (ls : List (List Char)) (n : Nat) (hn : n < ls.length) :
    ((ls.take (n + 1)).map (fun l => l.length + 1)).sum
      = ((ls.take n).map (fun l => l.length + 1)).sum + ((ls.getD n []).length + 1) := by
  rw [List.take_succ, List.map_append, List.sum_append,
    List.getElem?_eq_getElem hn]
  simp [List.getD_eq_getElem ls [] hn, List.getElem?_eq_getElem hn]

/-- Number of lines of a text, as `split("\n")` counts them. -/
def line_count (source : List Char) : Nat := (splitNl source).length

/-- Length of the `i`-th line of a text (0 if `i` is out of range). -/
def line_len (source : List Char) (i : Nat) : Nat :=
  ((splitNl source).getD i []).length

-- ------------------------------------------------------------------
-- Completions: jedi bridge (`get_python_completions`, `map_jedi_type_to_lsp`)
-- ------------------------------------------------------------------

/-- The protocol-level completion kinds that `map_jedi_type_to_lsp` can
produce (a subset of the full LSP `CompletionItemKind` enumeration). -/
inductive CompletionItemKind where
  | Text
  | Module
  | Class
  | Function
  | Variable
  | File
  | Keyword
  | Property
deriving DecidableEq

/-- `map_jedi_type_to_lsp` from `completions.py`: the dictionary lookup
`mapping.get(jedi_type, CompletionItemKind.Text)` written as a decision
chain over the eight keys. -/
def map_jedi_type_to_lsp (jedi_type : String) : CompletionItemKind :=
  if jedi_type = "module" then CompletionItemKind.Module
  else if jedi_type = "class" then CompletionItemKind.Class
  else if jedi_type = "function" then CompletionItemKind.Function
  else if jedi_type = "param" then CompletionItemKind.Variable
  else if jedi_type = "path" then CompletionItemKind.File
  else if jedi_type = "keyword" then CompletionItemKind.Keyword
  else if jedi_type = "property" then CompletionItemKind.Property
  else if jedi_type = "statement" then CompletionItemKind.Variable
  else CompletionItemKind.Text

inductive InsertTextFormat where
  | PlainText
  | Snippet
deriving DecidableEq

/-- The LSP completion item fields that `get_python_completions` fills. -/
structure CompletionItem where
  label : String
  kind : CompletionItemKind
  detail : String
  documentation : Option String
  insert_text : String
  insert_text_format : InsertTextFormat
  sort_text : String
deriving DecidableEq

/-- One completion produced by the external jedi engine: its `name`,
`type`, `description` and the two `docstring()` variants the code reads. -/
structure JediCompletion where
  name : String
  type : String
  description : String
  docstring_raw : String
  docstring : String
deriving DecidableEq

/-- An exception raised by an external collaborator (an arbitrary payload;
the code never inspects it). -/
inductive CollabError where
  | exn (msg : String)
deriving DecidableEq

/-- The per-completion conversion in the loop of `get_python_completions`
(`docstring()` is falsy in Python exactly when it is the empty string). -/
def jedi_to_item (comp : JediCompletion) : CompletionItem :=
  { label := comp.name
    kind := map_jedi_type_to_lsp comp.type
    detail := comp.description
    documentation := if comp.docstring = "" then none else some comp.docstring_raw
    insert_text := comp.name
    insert_text_format := InsertTextFormat.PlainText
    sort_text := comp.name }

/-- `get_python_completions` from `completions.py`.  The whole fallible
`try` body — materializing the temp file, `construct_ast`, `ast.unparse`,
`jedi.Script(...).complete(...)` — is the external collaborator
`construct_and_complete`; its `error` result stands for any exception,
which the code's `except Exception: return []` absorbs.  The `source` and
`position` parameters are accepted and ignored exactly as in the code
(the body only reads `context`). -/
def get_python_completions
    (construct_and_complete :
      List Char → Position → Except CollabError (List JediCompletion))
    (source : List Char) (position : Position)
    (context : CompletionContext) : List CompletionItem :=
  if context.is_python_code = false then []
  else
    match construct_and_complete context.full_source context.original_position with
    | Except.error _ => []
    | Except.ok comps => comps.map jedi_to_item

-- ------------------------------------------------------------------
-- Server: feature dispatcher (`server.py`)
-- ------------------------------------------------------------------

inductive DiagnosticSeverity where
  | Error
  | Warning
  | Information
  | Hint
deriving DecidableEq

/-- `_severity_to_lsp` from `server.py`: `mapping.get(severity, Warning)`. -/
def severity_to_lsp (severity : String) : DiagnosticSeverity :=
  if severity = "error" then DiagnosticSeverity.Error
  else if severity = "warning" then DiagnosticSeverity.Warning
  else if severity = "info" then DiagnosticSeverity.Information
  else if severity = "hint" then DiagnosticSeverity.Hint
  else DiagnosticSeverity.Warning

/-- A protocol range (`end` is a reserved word in Lean, hence `endPos`). -/
structure Range where
  start : Position
  endPos : Position
deriving DecidableEq

/-- One diagnostic record as the linting collaborator reports it. -/
structure RuffDiagnostic where
  line : Nat
  column : Nat
  end_line : Nat
  end_column : Nat
  message : String
  severity : String
  code : String
  source : String
deriving DecidableEq

/-- The LSP diagnostic built in the conversion loop of `validate_document`. -/
structure LspDiagnostic where
  range : Range
  message : String
  severity : DiagnosticSeverity
  code : String
  source : String
deriving DecidableEq

/-- The per-diagnostic conversion in `validate_document`. -/
def diag_to_lsp (d : RuffDiagnostic) : LspDiagnostic :=
  { range :=
      { start := { line := d.line, character := d.column }
        endPos := { line := d.end_line, character := d.end_column } }
    message := d.message
    severity := severity_to_lsp d.severity
    code := d.code
    source := d.source }

/-- One `publish_diagnostics` call observed at the protocol boundary. -/
structure PublishAction where
  uri : String
  diagnostics : List LspDiagnostic
deriving DecidableEq

/-- Python's `uri.endswith(".cgx")`: the file-kind gate. -/
def ends_with_cgx (uri : String) : Bool :=
  (".cgx".toList).isSuffixOf uri.toList

/-- `validate_document` from `server.py`, observed through the publish
calls it makes.  `doc_source` is the workspace lookup, `lint_cgx_content`
the fallible linting collaborator.  A non-`.cgx` uri returns before any
lookup; a collaborator exception is caught by the handler's
`except Exception`, which only logs — so both produce no publish. -/
def validate_document (doc_source : String → String)
    (lint_cgx_content : String → Except CollabError (List RuffDiagnostic))
    (uri : String) : List PublishAction :=
  if ends_with_cgx uri = false then []
  else
    match lint_cgx_content (doc_source uri) with
    | Except.error _ => []
    | Except.ok diagnostics =>
        [{ uri := uri, diagnostics := diagnostics.map diag_to_lsp }]

/-- `did_close` from `server.py`: publish an empty diagnostic set for the
closed document — for every uri, with no file-kind check. -/
def did_close (uri : String) : List PublishAction :=
  [{ uri := uri, diagnostics := [] }]

/-- Python's `content.splitlines(keepends=True)`, restricted to `"\n"`
separators (the only separator the data model admits): the lines of the
text with their trailing newline kept; the empty text has no lines. -/
def splitlines_keepends : List Char → List (List Char)
  | [] => []
  | c :: cs =>
    match splitlines_keepends cs with
    | [] => [[c]]
    | l :: ls => if c = '\n' then ['\n'] :: l :: ls else (c :: l) :: ls

/-- A formatting edit as returned to the protocol. -/
structure TextEdit where
  range : Range
  new_text : String
deriving DecidableEq

/-- `formatting` from `server.py`.  `format_cgx_content` is the fallible
formatting collaborator; an exception is caught and becomes `[]`.  When
the formatted text equals the current content no edit is returned;
otherwise one whole-document edit carries the new text.  (Python's
`last_line = len(lines) - 1` is `-1` for an empty document; with `Nat`
subtraction the model says `0` there, a corner that no reachable
document range distinguishes.) -/
def formatting (doc_source : String → String)
    (format_cgx_content : String → String → Except CollabError String)
    (uri : String) : List TextEdit :=
  if ends_with_cgx uri = false then []
  else
    let content := doc_source uri
    match format_cgx_content content uri with
    | Except.error _ => []
    | Except.ok formatted_content =>
      if formatted_content = content then []
      else
        let lines := splitlines_keepends content.toList
        let last_line := lines.length - 1
        let last_char := if lines = [] then 0 else (lines.getLastD []).length
        [{ range :=
            { start := { line := 0, character := 0 }
              endPos := { line := last_line, character := last_char } }
           new_text := formatted_content }]

/-- A semantic token as produced by the provider collaborator (its fields
are never inspected by the dispatcher, only encoded). -/
structure SemanticToken where
  payload : Nat
deriving DecidableEq

/-- The `SemanticTokens` response value. -/
structure SemanticTokens where
  data : List Nat
deriving DecidableEq

/-- `semantic_tokens_full` from `server.py`.  `get_tokens` is the fallible
provider collaborator, `encode_tokens` its LSP encoder; exceptions are
caught and become an empty token response. -/
def semantic_tokens_full (doc_source : String → String)
    (get_tokens : String → String → Except CollabError (List SemanticToken))
    (encode_tokens : List SemanticToken → List Nat)
    (uri : String) : SemanticTokens :=
  if ends_with_cgx uri = false then { data := [] }
  else
    match get_tokens (doc_source uri) uri with
    | Except.error _ => { data := [] }
    | Except.ok tokens => { data := encode_tokens tokens }

-- ------------------------------------------------------------------
-- Claim theorems
-- ------------------------------------------------------------------

/-- C1, counterexample.  The claim says `position_to_offset` clamps
out-of-range positions so that the result never exceeds the total length
of the text.  It does not: on the two-character text `"ab"`, the position
(line 0, character 10) has its character beyond the line length, and the
returned offset is 10, which exceeds the text length 2.  (The function is
total — it never throws — but nothing bounds the result by the length.) -/
theorem C1_counterexample :
    line_len ("ab".toList) 0 < (Position.mk 0 10).character ∧
    position_to_offset ("ab".toList) (Position.mk 0 10) = 10 ∧
    ¬ position_to_offset ("ab".toList) (Position.mk 0 10) ≤ ("ab".toList).length := by
  refine ⟨by decide, by decide, by decide⟩

/-- C1, amended.  `position_to_offset` is a total function (never throws):
an excessive `line` is truncated by the list slice, so the line-sum part
saturates at `length + 1`, and `character` is added on top unclamped.
Hence the result is bounded by `length(text) + 1 + position.character`,
but not by the length of the text itself. -/
theorem C1_amended_total_bound (source : List Char) (p : Position) :
    position_to_offset source p ≤ source.length + 1 + p.character := by
  unfold position_to_offset
  have h1 : (((splitNl source).take p.line).map (fun l => l.length + 1)).sum
      ≤ ((splitNl source).map (fun l => l.length + 1)).sum := by
    rw [List.map_take]
    exact sum_take_le _ _
  rw [splitNl_sum] at h1
  omega

/-- C2.  For a document whose scan yields exactly one region with content
span `[s, e)`, the classification at offset `o` is `true` exactly when
`s ≤ o ≤ e` (boundary-inclusive on both ends, as the code's
`match.start(1) <= offset <= match.end(1)` test reads), so it is `true`
for every offset in `[s, e]`, `false` at `s - 1` (an offset on the
opening-tag markup, well defined since `s ≥ 8`), and `false` at `e + 1`,
the first offset lying strictly on the closing-tag markup.  (Offset `e`
itself — the cursor between the last content character and the `<` of the
closing tag — is inside, by the claim's own `s ≤ o ≤ e`; "the first
character of the closing tag" is therefore read as the first offset past
that boundary, `e + 1`.) -/
theorem C2_single_region_boundaries (source : List Char) (s e : Nat)
    (h : findRegions source = [(s, e)]) :
    (∀ o : Nat, is_in_script_region_at source o = true ↔ (s ≤ o ∧ o ≤ e)) ∧
    is_in_script_region_at source (s - 1) = false ∧
    is_in_script_region_at source (e + 1) = false := by
  have h8 : 8 ≤ s ∧ s ≤ e := by
    have hmem : (s, e) ∈ findRegions source := by
      rw [h]; exact List.mem_singleton_self _
    have := regionsGo_bounds _ source 0 s e hmem
    omega
  have key : ∀ o : Nat, is_in_script_region_at source o = decide (s ≤ o ∧ o ≤ e) := by
    intro o
    simp [is_in_script_region_at, h]
  refine ⟨?_, ?_, ?_⟩
  · intro o
    rw [key]
    simp
  · rw [key]
    simp only [decide_eq_false_iff_not]
    omega
  · rw [key]
    simp only [decide_eq_false_iff_not]
    omega

/-- Witness for C2 on the concrete document `"<script>abc</script>"`,
whose single region has content span `[8, 11)`. -/
theorem C2_single_region_boundaries_witness :
    is_in_script_region_at ("<script>abc</script>".toList) 8 = true ∧
    is_in_script_region_at ("<script>abc</script>".toList) 11 = true ∧
    is_in_script_region_at ("<script>abc</script>".toList) (8 - 1) = false ∧
    is_in_script_region_at ("<script>abc</script>".toList) (11 + 1) = false := by
  have h := C2_single_region_boundaries ("<script>abc</script>".toList) 8 11 (by decide)
  exact ⟨(h.1 8).mpr (by decide), (h.1 11).mpr (by decide), h.2.1, h.2.2⟩

/-- The unterminated document of C3: an opening tag, never closed. -/
def unterminatedSource : List Char := "<script>x = 1".toList

/-- C3.  A text with no occurrence of the closing tag (in particular one
whose opening tag is unterminated) yields zero regions, and every
position is classified as not-embedded by `is_in_script_region` and
`analyze_context`.  Moreover, for every text, every region the scan emits
ends at a literal `</script>` — an unterminated opening tag is never
speculatively closed at end-of-file.  The concrete example
`"<script>x = 1"` has zero regions and the position of `x` (line 0,
character 8) is classified as not-embedded. -/
theorem C3_unterminated_zero_regions :
    (∀ source : List Char, findSub scriptClose source = none →
      findRegions source = [] ∧
      (∀ p : Position, is_in_script_region source p = false) ∧
      (∀ p : Position, (analyze_context source p).is_python_code = false)) ∧
    (∀ (source : List Char) (s e : Nat), (s, e) ∈ findRegions source →
      scriptClose.isPrefixOf (source.drop e) = true) ∧
    findRegions unterminatedSource = [] ∧
    (analyze_context unterminatedSource (Position.mk 0 8)).is_python_code = false := by
  refine ⟨?_, ?_, by decide, by decide⟩
  · intro source h
    have hr : findRegions source = [] := regionsGo_no_close _ source 0 h
    refine ⟨hr, ?_, ?_⟩
    · intro p
      simp [is_in_script_region, is_in_script_region_at, hr]
    · intro p
      have hin : is_in_script_region source p = false := by
        simp [is_in_script_region, is_in_script_region_at, hr]
      simp [analyze_context, hin]
  · intro source s e hmem
    have h := regionsGo_close_terminated _ source 0 s e hmem
    simpa using h.2

/-- Witness for C3: the example document contains no closing tag, and the
theorem instantiated there reports zero regions. -/
theorem C3_unterminated_zero_regions_witness :
    findSub scriptClose unterminatedSource = none ∧
    findRegions unterminatedSource = [] :=
  ⟨by decide, (C3_unterminated_zero_regions.1 unterminatedSource (by decide)).1⟩

/-- An uppercase spelling of the tag pair, region-free under the scanner. -/
def upperTagSource : List Char := "<SCRIPT>x</SCRIPT>".toList

/-- The lowercase spelling of the same document. -/
def lowerTagSource : List Char := "<script>x</script>".toList

/-- C4, counterexample.  The pattern `<script[^>]*>(.*?)</script>` is
compiled with `re.DOTALL` only — no `re.IGNORECASE` — so detection is
case-sensitive: at the content offset 8 the lowercase document classifies
as inside but the uppercase spelling `<SCRIPT>x</SCRIPT>` classifies as
outside (it yields no region at all), refuting "the same inside/outside
classification at every offset". -/
theorem C4_counterexample_case_sensitive :
    is_in_script_region lowerTagSource (Position.mk 0 8) = true ∧
    is_in_script_region upperTagSource (Position.mk 0 8) = false ∧
    findRegions lowerTagSource = [(8, 9)] ∧
    findRegions upperTagSource = [] := by
  refine ⟨by decide, by decide, by decide, by decide⟩

/-- C4, amended.  Region detection is case-sensitive on the tag name: the
uppercase spelling yields zero regions and every offset classifies as
outside.  It is attribute-insensitive: an opening tag carrying attribute
text (any characters without `>`) still yields exactly one region; the
content span is shifted right by the attribute text's length, and the
classification at correspondingly shifted offsets agrees with the
attribute-free spelling. -/
theorem C4_amended_attr_insensitive_case_sensitive :
    (findRegions upperTagSource = [] ∧
      ∀ o : Nat, is_in_script_region_at upperTagSource o = false) ∧
    (∀ attrs content : List Char, '>' ∉ attrs →
      findSub scriptClose (content ++ scriptClose) = some content.length →
      findRegions (tagDoc attrs content)
        = [(8 + attrs.length, 8 + attrs.length + content.length)] ∧
      ∀ k : Nat,
        is_in_script_region_at (tagDoc attrs content) (8 + attrs.length + k)
          = is_in_script_region_at (tagDoc [] content) (8 + k)) := by
  constructor
  · refine ⟨by decide, ?_⟩
    intro o
    have h : findRegions upperTagSource = [] := by decide
    simp [is_in_script_region_at, h]
  · intro attrs content hattr hcontent
    have h1 := findRegions_tagDoc attrs content hattr hcontent
    have h2 := findRegions_tagDoc [] content (by simp) hcontent
    have e1 : 7 + attrs.length + 1 = 8 + attrs.length := by omega
    rw [e1] at h1
    refine ⟨h1, ?_⟩
    intro k
    simp only [is_in_script_region_at, h1, h2, List.length_nil, List.any_cons,
      List.any_nil, Bool.or_false]
    rw [decide_eq_decide]
    omega

/-- Witness for C4's amended statement: the tag pair with attribute text
`" a"` and content `"x"` yields the region `[(10, 11)]`. -/
theorem C4_amended_witness :
    findRegions (tagDoc (' ' :: 'a' :: []) ('x' :: [])) = [(10, 11)] := by
  have h := (C4_amended_attr_insensitive_case_sensitive.2 (' ' :: 'a' :: [])
      ('x' :: []) (by decide) (by decide)).1
  simpa using h

/-- C5.  `position_to_offset` is a pure function of its arguments (hence
deterministic), and for positions within the text's bounds it is monotone:
a later position (greater line, or equal line and greater character) never
maps to a smaller offset. -/
theorem C5_offset_monotone (source : List Char) (p q : Position)
    (hp1 : p.line < line_count source)
    (hp2 : p.character ≤ line_len source p.line)
    (hq1 : q.line < line_count source)
    (hq2 : q.character ≤ line_len source q.line)
    (hlt : p.line < q.line ∨ (p.line = q.line ∧ p.character < q.character)) :
    position_to_offset source p ≤ position_to_offset source q := by
  rcases hlt with hline | ⟨hl, hc⟩
  · have hstep := sum_map_take_succ (splitNl source) p.line hp1
    have hmono : (((splitNl source).take (p.line + 1)).map (fun l => l.length + 1)).sum
        ≤ (((splitNl source).take q.line).map (fun l => l.length + 1)).sum :=
      sum_map_take_mono _ (by omega)
    unfold position_to_offset
    unfold line_len at hp2
    omega
  · unfold position_to_offset
    rw [hl]
    omega

/-- Witness for C5 on `"ab\ncd"`: (line 0, char 1) before (line 1, char 0). -/
theorem C5_offset_monotone_witness :
    position_to_offset ("ab".toList ++ '\n' :: "cd".toList) (Position.mk 0 1)
      ≤ position_to_offset ("ab".toList ++ '\n' :: "cd".toList) (Position.mk 1 0) :=
  C5_offset_monotone _ (Position.mk 0 1) (Position.mk 1 0)
    (by decide) (by decide) (by decide) (by decide) (Or.inl (by decide))

/-- The example document of C6: a script tag whose embedded code
`def f(:` is not valid scripting syntax. -/
def defColonSource : List Char := "<script>def f(:".toList

/-- C6.  If the fallible collaborator (temp-file materialization,
`construct_ast`, `ast.unparse`, jedi) raises, `get_python_completions`
returns `[]` — the `except Exception` absorbs the error, so nothing
propagates (in the embedding the function is total, so the only possible
outcome of a collaborator error is the empty list).  For the example
document `"<script>def f(:"`, a request at a position inside the script
text returns `[]` for every collaborator whatsoever (the unterminated tag
already classifies the position as not-embedded). -/
theorem C6_collaborator_failure_empty :
    (∀ (construct_and_complete :
          List Char → Position → Except CollabError (List JediCompletion))
        (source : List Char) (position : Position)
        (context : CompletionContext) (err : CollabError),
      construct_and_complete context.full_source context.original_position
        = Except.error err →
      get_python_completions construct_and_complete source position context = []) ∧
    (∀ (construct_and_complete :
          List Char → Position → Except CollabError (List JediCompletion))
        (source : List Char) (position : Position),
      get_python_completions construct_and_complete source position
        (analyze_context defColonSource (Position.mk 0 12)) = []) := by
  constructor
  · intro cac source position context err herr
    unfold get_python_completions
    cases hb : context.is_python_code with
    | false => simp
    | true => simp [hb, herr]
  · intro cac source position
    have hctx : (analyze_context defColonSource (Position.mk 0 12)).is_python_code
        = false := by decide
    unfold get_python_completions
    rw [hctx]
    simp

/-- Witness for C6: a collaborator that always raises, on a context whose
cursor is classified as embedded code, still yields `[]`. -/
theorem C6_collaborator_failure_empty_witness :
    get_python_completions (fun _ _ => Except.error (CollabError.exn "boom"))
      [] (Position.mk 0 0)
      (CompletionContext.mk true ("<script>def f(:</script>".toList)
        (Position.mk 0 9)) = [] :=
  C6_collaborator_failure_empty.1 _ _ _ _ (CollabError.exn "boom") rfl

/-- C7, counterexample.  The claim says that for a non-`.cgx` document
"the close event performs no processing".  But `did_close` carries no
file-kind check at all: for the non-matching uri `"file:///test.py"` it
still publishes an (empty) diagnostic set — an observable publish call,
not a no-op. -/
theorem C7_counterexample_close_ungated :
    ends_with_cgx "file:///test.py" = false ∧
    did_close "file:///test.py"
      = [{ uri := "file:///test.py", diagnostics := [] }] ∧
    did_close "file:///test.py" ≠ ([] : List PublishAction) := by
  refine ⟨by decide, rfl, by simp [did_close]⟩

/-- C7, amended.  Validation, formatting and semantic-token requests are
each gated on the `.cgx` extension: for every non-matching document and
every collaborator they publish nothing, return no edits, and return an
empty token list, raising no error.  The close event, however, is not
gated: it publishes an empty diagnostic clear for every document,
matching or not. -/
theorem C7_amended_gate (uri : String) (h : ends_with_cgx uri = false)
    (doc_source : String → String)
    (lint_cgx_content : String → Except CollabError (List RuffDiagnostic))
    (format_cgx_content : String → String → Except CollabError String)
    (get_tokens : String → String → Except CollabError (List SemanticToken))
    (encode_tokens : List SemanticToken → List Nat) :
    validate_document doc_source lint_cgx_content uri = [] ∧
    formatting doc_source format_cgx_content uri = [] ∧
    semantic_tokens_full doc_source get_tokens encode_tokens uri = { data := [] } ∧
    did_close uri = [{ uri := uri, diagnostics := [] }] := by
  refine ⟨?_, ?_, ?_, rfl⟩ <;>
    simp [validate_document, formatting, semantic_tokens_full, h]

/-- Witness for C7's amended statement at a concrete non-`.cgx` uri. -/
theorem C7_amended_gate_witness :
    validate_document (fun _ => "") (fun _ => Except.ok []) "file:///a.py" = []
      ∧ formatting (fun _ => "") (fun _ _ => Except.ok "y") "file:///a.py" = [] := by
  have h := C7_amended_gate "file:///a.py" (by decide) (fun _ => "")
    (fun _ => Except.ok []) (fun _ _ => Except.ok "y")
    (fun _ _ => Except.ok []) (fun _ => [])
  exact ⟨h.1, h.2.1⟩

/-- C8.  When the formatting collaborator returns output identical to the
current content, the formatting request yields no edit (this holds for
`.cgx` and non-`.cgx` uris alike); when it returns different output for a
`.cgx` document, exactly one whole-document edit is returned and its new
text is the collaborator's output.  Reformatting already-formatted
content therefore never produces a content-changing edit. -/
theorem C8_format_identity_no_edit (doc_source : String → String)
    (format_cgx_content : String → String → Except CollabError String)
    (uri : String) :
    (format_cgx_content (doc_source uri) uri = Except.ok (doc_source uri) →
      formatting doc_source format_cgx_content uri = []) ∧
    (∀ formatted : String,
      ends_with_cgx uri = true →
      format_cgx_content (doc_source uri) uri = Except.ok formatted →
      formatted ≠ doc_source uri →
      ∃ edit : TextEdit,
        formatting doc_source format_cgx_content uri = [edit] ∧
        edit.new_text = formatted) := by
  constructor
  · intro hfmt
    unfold formatting
    cases hg : ends_with_cgx uri with
    | false => simp
    | true => simp [hfmt]
  · intro formatted hg hfmt hne
    unfold formatting
    rw [hg]
    simp only [Bool.true_eq_false, if_false, hfmt, hne]
    exact ⟨_, rfl, rfl⟩

/-- Witness for C8: an identity formatter on a `.cgx` document yields no
edit, and a changing formatter yields an edit carrying its output. -/
theorem C8_format_identity_no_edit_witness :
    formatting (fun _ => "x") (fun c _ => Except.ok c) "a.cgx" = [] ∧
    ∃ edit : TextEdit,
      formatting (fun _ => "x") (fun _ _ => Except.ok "y") "a.cgx" = [edit] ∧
      edit.new_text = "y" :=
  ⟨(C8_format_identity_no_edit (fun _ => "x") (fun c _ => Except.ok c) "a.cgx").1 rfl,
   (C8_format_identity_no_edit (fun _ => "x") (fun _ _ => Except.ok "y") "a.cgx").2
     "y" (by decide) rfl (by decide)⟩

/-- C9.  `map_jedi_type_to_lsp` is total: the eight engine-native kinds
map to their listed protocol kinds (`module → Module`, `class → Class`,
`function → Function`, `param → Variable`, `path → File`,
`keyword → Keyword`, `property → Property`, `statement → Variable`), and
every other input string maps to the generic `Text` kind. -/
theorem C9_mapping_total :
    map_jedi_type_to_lsp "module" = CompletionItemKind.Module ∧
    map_jedi_type_to_lsp "class" = CompletionItemKind.Class ∧
    map_jedi_type_to_lsp "function" = CompletionItemKind.Function ∧
    map_jedi_type_to_lsp "param" = CompletionItemKind.Variable ∧
    map_jedi_type_to_lsp "path" = CompletionItemKind.File ∧
    map_jedi_type_to_lsp "keyword" = CompletionItemKind.Keyword ∧
    map_jedi_type_to_lsp "property" = CompletionItemKind.Property ∧
    map_jedi_type_to_lsp "statement" = CompletionItemKind.Variable ∧
    (∀ s : String, s ≠ "module" → s ≠ "class" → s ≠ "function" → s ≠ "param" →
      s ≠ "path" → s ≠ "keyword" → s ≠ "property" → s ≠ "statement" →
      map_jedi_type_to_lsp s = CompletionItemKind.Text) := by
  refine ⟨rfl, rfl, rfl, rfl, rfl, rfl, rfl, rfl, ?_⟩
  intro s h1 h2 h3 h4 h5 h6 h7 h8
  simp [map_jedi_type_to_lsp, h1, h2, h3, h4, h5, h6, h7, h8]

/-- Witness for C9's default case at the unrecognized kind `"instance"`. -/
theorem C9_mapping_total_witness :
    map_jedi_type_to_lsp "instance" = CompletionItemKind.Text :=
  C9_mapping_total.2.2.2.2.2.2.2.2 "instance" (by decide) (by decide) (by decide)
    (by decide) (by decide) (by decide) (by decide) (by decide)

/-- The empty-content tag pair of C10. -/
def emptyTagSource : List Char := "<script></script>".toList

/-- C10.  `"<script></script>"` yields the single empty-content region
`[8, 8)`, and the boundary offset 8 is classified as inside — both via
`is_in_script_region` at position (line 0, character 8) and at the raw
offset — while every other offset is outside: an empty-content region
has exactly one inside position. -/
theorem C10_empty_region_inside :
    findRegions emptyTagSource = [(8, 8)] ∧
    is_in_script_region emptyTagSource (Position.mk 0 8) = true ∧
    is_in_script_region_at emptyTagSource 8 = true ∧
    (∀ o : Nat, o ≠ 8 → is_in_script_region_at emptyTagSource o = false) := by
  refine ⟨by decide, by decide, by decide, ?_⟩
  intro o ho
  have h : findRegions emptyTagSource = [(8, 8)] := by decide
  simp only [is_in_script_region_at, h, List.any_cons, List.any_nil, Bool.or_false,
    decide_eq_false_iff_not]
  omega

/-- Witness for C10's universally quantified part at the offset 9 (the
`<` of the closing tag's successor under the boundary policy). -/
theorem C10_empty_region_inside_witness :
    is_in_script_region_at emptyTagSource 9 = false :=
  C10_empty_region_inside.2.2.2 9 (by decide)
